import Mathlib

/-!
Verification development for the file_search_system repository.

The repository maintains per-index SQLite stores (`files` table plus a
`files_fts` full-text shadow table), a meta catalog of indexes, an indexing
engine (`indexer.py`: `index_files` full rebuild, `update_index_files`
incremental) and a search front end (`main.py`: `parse_search_query`,
`search_files`).

External collaborators (filesystem, content extraction, the FTS backend's
MATCH semantics, the concurrently-settable stop flag) are modelled as
oracles packaged in `Env` or passed as function parameters; everything else
is translated directly from the Python source.
-/

namespace FileSearch

/-- Oracles for the external collaborators of an indexing run:
`extract` is the content extractor (`extract_content` and the per-format
readers, which never raise and return `""` on failure), `mtime`/`ctime` are
`os.path.getmtime`/`os.path.getctime` (`none` models a raised `OSError`),
and `stop` gives the value observed by the n-th poll of
`is_indexing_stop_requested` during the run (the flag is settable
concurrently by other threads, hence an oracle indexed by poll count). -/
structure Env where
  extract : String → String
  mtime : String → Option ℚ
  ctime : String → Option ℚ
  stop : ℕ → Bool

/-- A row of the per-index `files` table
(`path, content, file_type, modified_date, created_date`). -/
structure FileRec where
  path : String
  content : String
  fileType : String
  modifiedDate : Option ℚ
  createdDate : Option ℚ
deriving DecidableEq, Repr

/-- The per-index store: the `files` table and the `files_fts` shadow table
(rows of the latter are `(path, content)` pairs). -/
structure Store where
  files : List FileRec
  fts : List (String × String)
deriving DecidableEq, Repr

def emptyStore : Store := ⟨[], []⟩

def filePaths (s : Store) : List String := s.files.map (fun f => f.path)

/-- Python `file.endswith(ext)` (case-sensitive suffix match). -/
def endsWithExt (file ext : String) : Bool := ext.toList.isSuffixOf file.toList

/-- The directory scan of `index_files`/`update_index_files`
(`indexer.py` lines 119-124 and 273-277): walk entries are `(root, name)`
pairs; a file is kept when some allowed extension is a suffix of its name,
and the kept entries are joined as `root/name`. -/
def scanFiles (walk : List (String × String)) (exts : List String) : List String :=
  (walk.filter (fun rf => exts.any (fun e => endsWithExt rf.2 e))).map
    (fun rf => rf.1 ++ ("/") ++ rf.2)

/-- Model of `existing_files.get(file_path)` for the dict built from
`SELECT path, modified_date FROM files`: the stored `modified_date`
(itself nullable) of a path. -/
def lookupMtime (pairs : List (String × Option ℚ)) (p : String) : Option ℚ :=
  (pairs.lookup p).getD none

/-- The update test of `update_index_files` (`indexer.py` lines 289-297):
a path in both snapshots is "updated" when `os.path.getmtime` succeeds and
either the stored mtime is NULL or the two mtimes differ by more than the
1-second tolerance; on `OSError` the file is skipped (treated as
unchanged). -/
def isUpdatedFile (env : Env) (stored : Option ℚ) (p : String) : Bool :=
  match env.mtime p with
  | none => false
  | some m =>
    match stored with
    | none => true
    | some s => decide (1 < |m - s|)

/-- Definition `new_files = current_files_set - existing_files_set` (line 283). -/
def diffNew (current existingKeys : List String) : List String :=
  current.filter (fun p => !(existingKeys.contains p))

/-- Definition `deleted_files = existing_files_set - current_files_set` (line 284). -/
def diffDeleted (current existingKeys : List String) : List String :=
  existingKeys.filter (fun p => !(current.contains p))

/-- Definition `potentially_updated_files = current_files_set & existing_files_set`
(line 285). -/
def diffPotential (current existingKeys : List String) : List String :=
  current.filter (fun p => existingKeys.contains p)

/-- Definition of `updated_files` (lines 288-297). -/
def diffUpdated (env : Env) (pairs : List (String × Option ℚ))
    (current : List String) : List String :=
  (diffPotential current (pairs.map Prod.fst)).filter
    (fun p => isUpdatedFile env (lookupMtime pairs p) p)

/-- The remaining intersection: paths in both snapshots that the update test
leaves alone (`len(potentially_updated_files) - len(updated_files)` at
line 300). -/
def diffUnchanged (env : Env) (pairs : List (String × Option ℚ))
    (current : List String) : List String :=
  (diffPotential current (pairs.map Prod.fst)).filter
    (fun p => !(isUpdatedFile env (lookupMtime pairs p) p))

/-- A row of the meta catalog `indexes` table (`database.py` lines 45-55). -/
structure MetaRow where
  id : ℕ
  name : String
  targetDirectory : String
  allowedExtensions : String
  dbPath : String
  status : String
deriving DecidableEq, Repr

/-- Outcome of `add_index_config`: `ok id` (success), `dupName` (the
`sqlite3.IntegrityError` branch for a duplicate UNIQUE `name`, surfaced to
the caller as the `-1` sentinel and rendered by the `/add_index` route as
the duplicate-name error message), or `initFailed` (store initialization
failed and the original error was re-raised after rollback). -/
inductive AddOutcome where
  | ok (id : ℕ)
  | dupName
  | initFailed
deriving DecidableEq, Repr

/-- Model of `last_insert_rowid()` for an AUTOINCREMENT insert: strictly larger than
every id already in the table. -/
def freshId (meta : List MetaRow) : ℕ :=
  (meta.map (fun r => r.id)).foldr max 0 + 1

/-- Embedding of `add_index_config` (`database.py` lines 168-213): insert the catalog row
(a duplicate UNIQUE `name` raises `IntegrityError`, caught and turned into
the `-1` sentinel = `dupName`), then run `create_index_tables` on the fresh
db path. `storeInitFails` injects a failure of that storage initialization,
in which case the row just inserted is deleted again
(`DELETE FROM indexes WHERE id = ?`) and the original error re-raised.
`dbPath` stands for the generated `indexes/index_<timestamp>_<len>.db`
location. -/
def add_index_config (meta : List MetaRow) (name target exts dbPath : String)
    (storeInitFails : Bool) : AddOutcome × List MetaRow :=
  if (meta.map (fun r => r.name)).contains name then (.dupName, meta)
  else
    let idNew := freshId meta
    let meta' := meta ++ [⟨idNew, name, target, exts, dbPath, ("not_indexed")⟩]
    if storeInitFails then (.initFailed, meta'.filter (fun r => decide (r.id ≠ idNew)))
    else (.ok idNew, meta')

/-- Python whitespace, as honoured by `str.strip()`, `str.split()` and the
regex class matched by the backslash-s pattern (restricted to the characters
relevant to this code base: ASCII whitespace, NBSP and the full-width space
U+3000). -/
def isPyWs (c : Char) : Bool :=
  c = ' ' || c = '\t' || c = '\n' || c = '\r' || c = '\u000B' || c = '\u000C' ||
  c = ' ' || c = '　'

/-- Python `s.strip()` on a char list. -/
def stripPy (l : List Char) : List Char :=
  ((l.dropWhile isPyWs).reverse.dropWhile isPyWs).reverse

def stripPyStr (s : String) : String := String.mk (stripPy s.data)

/-- The tokenizer whitespace set `whitespace_chars` of `parse_search_query`
(`main.py` line 118): space, tab and the full-width space. -/
def wsChars : List Char := [' ', '\t', '　']

/-- Characters that terminate a word scan:
`whitespace_chars` plus the pipe and the parentheses (lines 165 and 176). -/
def wordStops : List Char := [' ', '\t', '　', '|', '(', ')']

/-- Python `query[a:b]`. -/
def slice (q : List Char) (a b : ℕ) : List Char := (q.drop a).take (b - a)

def findFromAux (q pat : List Char) : ℕ → ℕ → Option ℕ
  | 0, _ => none
  | fuel + 1, i =>
    if pat.isPrefixOf (q.drop i) then some i
    else findFromAux q pat fuel (i + 1)

/-- Python `query.find(pat, start)` (`none` models the `-1` result). -/
def findFrom (q pat : List Char) (start : ℕ) : Option ℕ :=
  findFromAux q pat (q.length + 1 - start) start

/-- Length of the word scanned by the exclusion branch (lines 164-168):
characters are consumed until a `wordStops` character or a double quote. -/
def notWordLen (l : List Char) : ℕ :=
  match l with
  | [] => 0
  | c :: rest => if c ∈ wordStops ∨ c = '"' then 0 else notWordLen rest + 1

/-- Length of the word scanned by the plain-word branch (lines 174-179):
characters are consumed until a `wordStops` character, a double quote or a
hyphen.  Note that when the first character is already a stop the scan
consumes nothing — the loop index does not advance. -/
def wordLen (l : List Char) : ℕ :=
  match l with
  | [] => 0
  | c :: rest => if c ∈ wordStops ∨ c = '"' ∨ c = '-' then 0 else wordLen rest + 1

/-- One iteration of the tokenizer's outer `while i < length` loop of
`parse_search_query` (`main.py` lines 120-182), translated branch by branch
with the same fall-through behaviour: strict phrase, phrase, `OR`, `|`,
exclusion word, plain word.  Returns the new scan position and token list;
the position does NOT always advance (see `wordLen`). -/
def tokStep (q : List Char) (i : ℕ) (toks : List String) : ℕ × List String :=
  let c := q.getD i ' '
  if c ∈ wsChars then (i + 1, toks)
  else
    match (if i + 1 < q.length ∧ slice q i (i + 2) = ['"', '"'] then
        findFrom q ['"', '"'] (i + 2) else none) with
    | some e =>
      let ph := stripPy (slice q (i + 2) e)
      (e + 2, if ph = [] then toks
        else toks ++ [String.mk (['"', '"', '"'] ++ ph ++ ['"', '"', '"'])])
    | none =>
      match (if c = '"' then findFrom q ['"'] (i + 1) else none) with
      | some e =>
        let ph := stripPy (slice q (i + 1) e)
        (e + 1, if ph = [] then toks
          else toks ++ [String.mk (['"'] ++ ph ++ ['"'])])
      | none =>
        if i + 1 < q.length ∧ (slice q i (i + 2)).map Char.toUpper = ['O', 'R'] ∧
            (i = 0 ∨ q.getD (i - 1) ' ' ∈ wsChars ∨ q.getD (i - 1) ' ' = '(') ∧
            (q.length ≤ i + 2 ∨ q.getD (i + 2) ' ' ∈ wsChars ∨ q.getD (i + 2) ' ' = ')') then
          (i + 2, toks ++ [("OR")])
        else if c = '|' then
          (i + 1, toks ++ [("OR")])
        else if c = '-' ∧ (i = 0 ∨ q.getD (i - 1) ' ' ∈ wsChars ∨ q.getD (i - 1) ' ' = '(') then
          let j := i + 1 + notWordLen (q.drop (i + 1))
          let w := stripPy (slice q (i + 1) j)
          (j, if w = [] then toks else toks ++ [String.mk (['N', 'O', 'T', ' '] ++ w)])
        else
          let j := i + wordLen (q.drop i)
          let w := stripPy (slice q i j)
          (j, if w = [] ∨ w.map Char.toUpper = ['O', 'R'] then toks
            else toks ++ [String.mk w])

/-- The tokenizer's outer loop, with explicit fuel because the source loop
need not terminate (a `tokStep` that does not advance repeats forever):
`none` means the fuel ran out before the scan position reached the end,
i.e. the Python loop would still be running. -/
def tokLoop (q : List Char) : ℕ → ℕ → List String → Option (List String)
  | 0, i, toks => if q.length ≤ i then some toks else none
  | fuel + 1, i, toks =>
    if q.length ≤ i then some toks
    else
      let r := tokStep q i toks
      tokLoop q fuel r.1 r.2

/-- The second phase of `parse_search_query` (`main.py` lines 188-236):
turn the token list into the FTS5 query parts (`fts_parts`). The
`prev_was_operator` variable of the source is assigned but never read and
is omitted. -/
def buildParts : List String → List String
  | [] => []
  | t :: rest =>
    if t.data.map Char.toUpper = ['O', 'R'] then ("OR") :: buildParts rest
    else if (['N', 'O', 'T', ' ']).isPrefixOf (t.data.map Char.toUpper) then
      let w := stripPy (t.data.drop 4)
      if w = [] then buildParts rest
      else String.mk (['N', 'O', 'T', ' '] ++ w) :: buildParts rest
    else if (['"']).isPrefixOf t.data ∧ ¬ (['"', '"', '"']).isPrefixOf t.data then
      t :: buildParts rest
    else if (['"', '"', '"']).isPrefixOf t.data ∧ (['"', '"', '"']).isSuffixOf t.data then
      t :: buildParts rest
    else if t.data ≠ [] then t :: buildParts rest
    else buildParts rest

/-- Python `' '.flatten(parts)` as a char list. -/
def joinSpace : List String → List Char
  | [] => []
  | [t] => t.data
  | t :: rest => t.data ++ [' '] ++ joinSpace rest

def collapseWsAux : List Char → Bool → List Char
  | [], _ => []
  | c :: rest, prev =>
    if isPyWs c then
      if prev then collapseWsAux rest true else ' ' :: collapseWsAux rest true
    else c :: collapseWsAux rest false

/-- Model of `re.sub` applied with the one-or-more-whitespace pattern and a
single-space replacement (`main.py` line 242): every maximal whitespace run
becomes one space. -/
def collapseWs (l : List Char) : List Char := collapseWsAux l false

/-- Embedding of `parse_search_query` (`main.py` lines 90-245).  The result
is `none` when the source's tokenizer loop does not terminate on the input
(no fuel suffices: every terminating scan advances the position by at least
one per iteration, so `length + 1` steps are enough whenever the loop
terminates at all), and `some fts_query` otherwise, with `some ""` as the
empty-query sentinel. -/
def parse_search_query (q : String) : Option String :=
  if stripPy q.data = [] then some ("")
  else
    let qs := stripPy q.data
    match tokLoop qs (qs.length + 1) 0 [] with
    | none => none
    | some toks =>
      if toks = [] then some ("")
      else some (String.mk (stripPy (collapseWs (joinSpace (buildParts toks)))))

def pyWordsAux : List Char → List Char → List (List Char)
  | [], acc => if acc = [] then [] else [acc.reverse]
  | c :: rest, acc =>
    if isPyWs c then
      if acc = [] then pyWordsAux rest [] else acc.reverse :: pyWordsAux rest []
    else pyWordsAux rest (c :: acc)

/-- Python `s.split()`: the maximal whitespace-free runs of the string. -/
def pySplit (s : String) : List String := (pyWordsAux s.data []).map String.mk

/-- Python `term.strip` applied with the double-quote character: leading and
trailing quote characters removed. -/
def stripQuotes (l : List Char) : List Char :=
  ((l.dropWhile (fun c => c = '"')).reverse.dropWhile (fun c => c = '"')).reverse

def stripQuotesStr (s : String) : String := String.mk (stripQuotes s.data)

def upperStr (s : String) : String := String.mk (s.data.map Char.toUpper)

def lowerStr (s : String) : String := String.mk (s.data.map Char.toLower)

/-- The raw search terms of `search_files` (`main.py` line 595): the
whitespace split of the stripped query, dropping `OR`/`AND`
(case-insensitive) and terms starting with a hyphen. -/
def searchTerms (q : String) : List String :=
  (pySplit (stripPyStr q)).filter
    (fun t => decide (upperStr t ≠ ("OR") ∧ upperStr t ≠ ("AND") ∧
      ¬ (['-']).isPrefixOf t.data))

/-- The fallback decision of `search_files` (`main.py` line 596): the LIKE
search is used exactly when some raw term, quotes stripped, has length at
most 2 (the trigram tokenizer needs 3 characters). -/
def useLikeSearch (q : String) : Bool :=
  (searchTerms q).any (fun t => decide ((stripQuotesStr t).length ≤ 2))

/-- Optional search filters, with the date filters already resolved to
absolute timestamp ranges (`get_date_range` resolves the relative keywords
against `datetime.now()`, an external input). -/
structure Filters where
  fileTypes : List String
  modifiedRange : Option (ℚ × ℚ)
  createdRange : Option (ℚ × ℚ)

/-- The normalized file-type list (`main.py` line 570): blank entries
dropped, the rest lowercased. -/
def normFileTypes (fts : List String) : List String :=
  (fts.filter (fun t => decide (stripPyStr t ≠ ("")))).map lowerStr

/-- One conjunct of the WHERE clause generated by `search_files`. -/
inductive Cond where
  | contentLike (pat : String)
  | fileTypeIn (types : List String)
  | modifiedBetween (a b : ℚ)
  | createdBetween (a b : ℚ)
  | ftsMatch (q : String)
  | trivialTrue
deriving DecidableEq, Repr

/-- The filter conditions built in `main.py` lines 563-591: a file-type IN
condition and the two date-range conditions, in that order. -/
def filterConds (fl : Filters) : List Cond :=
  (if normFileTypes fl.fileTypes = [] then [] else
    [Cond.fileTypeIn (normFileTypes fl.fileTypes)]) ++
  (match fl.modifiedRange with
   | none => []
   | some (a, b) => [Cond.modifiedBetween a b]) ++
  (match fl.createdRange with
   | none => []
   | some (a, b) => [Cond.createdBetween a b])

/-- The SQL issued by `search_files` (`main.py` lines 598-654), reduced to
which table is joined and the list of WHERE conjuncts: the
substring-fallback query runs against `files` alone with one LIKE conjunct
per raw term followed by the filter conjuncts (`1=1` when there are none);
the full-text query runs `files_fts MATCH ?` inner-joined back to `files`
with the filter conjuncts appended. -/
structure BuiltQuery where
  usesFtsJoin : Bool
  conds : List Cond
deriving DecidableEq, Repr

def buildSearchQuery (q : String) (fl : Filters) (ftsQ : String) : BuiltQuery :=
  if useLikeSearch q then
    let like := (searchTerms q).map
      (fun t => Cond.contentLike (("%") ++ stripQuotesStr t ++ ("%")))
    let all := like ++ filterConds fl
    ⟨false, if all = [] then [Cond.trivialTrue] else all⟩
  else
    ⟨true, Cond.ftsMatch ftsQ :: filterConds fl⟩

/-- Row-level semantics of the filter conditions against a `files` row
(`file_type IN (...)`, `modified_date/created_date IS NOT NULL AND` within
range). -/
def passFilters (fl : Filters) (f : FileRec) : Bool :=
  (decide (normFileTypes fl.fileTypes = []) ||
    (normFileTypes fl.fileTypes).contains f.fileType) &&
  (match fl.modifiedRange with
   | none => true
   | some (a, b) =>
     match f.modifiedDate with
     | none => false
     | some m => decide (a ≤ m) && decide (m ≤ b)) &&
  (match fl.createdRange with
   | none => true
   | some (a, b) =>
     match f.createdDate with
     | none => false
     | some m => decide (a ≤ m) && decide (m ≤ b))

def containsSeq (hay pat : List Char) : Bool :=
  match hay with
  | [] => pat.isPrefixOf ([] : List Char)
  | _ :: rest => pat.isPrefixOf hay || containsSeq rest pat

/-- Sqlite `content LIKE ?` with a `%term%` parameter: ASCII
case-insensitive substring containment. -/
def likeMatch (content term : String) : Bool :=
  containsSeq (content.data.map Char.toLower) (term.data.map Char.toLower)

def strTake (n : ℕ) (s : String) : String := String.mk (s.data.take n)

/-- The caller-side snippet truncation (`main.py` lines 658-661): a snippet
longer than 200 characters is cut to 200 characters and given a
three-character ellipsis. -/
def truncSnippet (s : String) : String :=
  if 200 < s.length then strTake 200 s ++ ("...") else s

/-- One row returned to the caller by `search_files`.  Timestamps are
carried raw; their display formatting through `datetime.fromtimestamp` is
outside the model. -/
structure ResultRow where
  path : String
  modifiedDate : Option ℚ
  createdDate : Option ℚ
  snippet : String
deriving DecidableEq, Repr

/-- The substring-fallback result set (`main.py` lines 616-624 together
with the result loop at 656-680): every `files` row whose content contains
each raw term (quotes stripped) and which passes the filters, with snippet
`substr(content, 1, 200)` then caller-truncated.  The query carries no
LIMIT clause. -/
def likeResults (store : Store) (q : String) (fl : Filters) : List ResultRow :=
  (store.files.filter (fun f =>
      (searchTerms q).all (fun t => likeMatch f.content (stripQuotesStr t)) &&
      passFilters fl f)).map
    (fun f => ⟨f.path, f.modifiedDate, f.createdDate,
      truncSnippet (strTake 200 f.content)⟩)

/-- The full-text result set (`main.py` lines 644-654 together with the
result loop): `files_fts` rows matching the translated query (`m` is the
backend's trigram MATCH semantics, an external collaborator), inner-joined
to `files` on path and filtered; the snippet comes from the backend's
`snippet(...)` function (`sn`), then caller-truncated.  `ORDER BY rank`
only permutes rows and is not modelled.  The query carries no LIMIT
clause. -/
def ftsResults (m : String → String → Bool) (sn : String → String)
    (store : Store) (fq : String) (fl : Filters) : List ResultRow :=
  ((store.fts.filter (fun e => m e.2 fq)).map (fun e =>
    (store.files.filter (fun f => decide (f.path = e.1) && passFilters fl f)).map
      (fun f => ⟨f.path, f.modifiedDate, f.createdDate,
        truncSnippet (sn e.2)⟩))).flatten

/-- Python `os.path.splitext(p)[1].lower()`: the lowercased extension of the
path's basename — the suffix from the last dot, provided some character of
the basename strictly before that dot is not itself a dot (so dotfiles have
no extension). -/
def extLower (p : String) : String :=
  let base := (p.data.reverse.takeWhile (fun c => c ≠ '/')).reverse
  let tail := base.reverse.takeWhile (fun c => c ≠ '.')
  if tail.length = base.length then ("")
  else
    let d := base.length - tail.length - 1
    if (base.take d).any (fun c => decide (c ≠ '.')) then
      String.mk ((base.drop d).map Char.toLower)
    else ("")

/-- The per-file record built by the full-rebuild loop (`indexer.py` lines
147-181): extension via `splitext`, content via the extractor dispatch
(which never raises), timestamps from the filesystem — if reading them
raises `OSError` both are stored NULL and the insert still proceeds. -/
def mkFileRec (env : Env) (p : String) : FileRec :=
  let content := env.extract p
  match env.mtime p, env.ctime p with
  | some m, some c => ⟨p, content, extLower p, some m, some c⟩
  | _, _ => ⟨p, content, extLower p, none, none⟩

/-- One full-rebuild file step (`indexer.py` lines 174-188): insert the
`files` row unconditionally, the `files_fts` row only when the content is
non-empty. -/
def processFileFull (env : Env) (s : Store) (p : String) : Store :=
  let r := mkFileRec env p
  let s1 : Store := ⟨s.files ++ [r], s.fts⟩
  if r.content = ("") then s1 else ⟨s1.files, s1.fts ++ [(p, r.content)]⟩

/-- The singleton `indexing_status` row of a per-index store
(`status, total_files, processed_files`; the two time fields are wall-clock
values external to the model). -/
structure IdxStatus where
  status : String
  total : ℕ
  processed : ℕ
deriving DecidableEq, Repr

/-- Outcome of a modelled indexing run: the final store, the final
`indexing_status` row, the final catalog status, whether an exception
escaped the function, and the paths processed by the write loops in
order. -/
structure RunResult where
  store : Store
  idx : IdxStatus
  meta : String
  raised : Bool
  writes : List String
deriving DecidableEq, Repr

/-- The shared shape of every per-file write loop of `indexer.py` (the
full-rebuild loop at lines 140-197 and the three incremental loops at lines
311-405): poll the stop flag at the current counter (`i` respectively
`processed_count`, which is also the poll index since each iteration polls
exactly once), then apply the per-file step.  Returns the store, the
processed paths, the counter on exit and whether the loop exited through
the stop break. -/
def fileLoop (env : Env) (step : Store → String → Store) :
    List String → ℕ → Store → List String →
    Store × List String × ℕ × Bool
  | [], c, s, w => (s, w, c, false)
  | p :: rest, c, s, w =>
    if env.stop c then (s, w, c, true)
    else fileLoop env step rest (c + 1) (step s p) (w ++ [p])

/-- Embedding of `index_files` (`indexer.py` lines 75-216).  `init` and
`idx0` are the per-index store and `indexing_status` row before the run;
the catalog status is set to `running` at line 80 before the `try` block.
`setupFails` injects a run-level exception before the scan (for example the
table-recreation DDL failing): the `except` handler at line 212 then
evaluates the unbound locals `total_files` and `i` and itself raises
`NameError`, so neither `update_indexing_status` nor
`update_index_status(..., 'failed')` executes — store and status row are
untouched, the catalog keeps `running`, and the exception escapes
(`raised = true`).  In the normal path the loop breaks on an observed stop
(recording `stopped` with `processed = i`), and after the loop one more
poll decides between `completed` (with `processed = total`) and `stopped`
(with `processed` the last loop index). -/
def index_files (env : Env) (init : Store) (idx0 : IdxStatus)
    (walk : List (String × String)) (exts : List String)
    (setupFails : Bool) : RunResult :=
  if setupFails then ⟨init, idx0, ("running"), true, []⟩
  else
    let files := scanFiles walk exts
    let total := files.length
    if total = 0 then ⟨emptyStore, ⟨("completed"), 0, 0⟩, ("completed"), false, []⟩
    else
      match fileLoop env (processFileFull env) files 0 emptyStore [] with
      | (s, w, j, broke) =>
        let fp := if broke then j + 1 else j
        if env.stop fp = false then
          ⟨s, ⟨("completed"), total, total⟩, ("completed"), false, w⟩
        else
          ⟨s, ⟨("stopped"), total, if broke then j else total - 1⟩, ("stopped"), false, w⟩

/-- Deletion step of the incremental update (`indexer.py` lines 318-323):
delete the path from `files` and from `files_fts`. -/
def delStep (s : Store) (p : String) : Store :=
  ⟨s.files.filter (fun f => decide (f.path ≠ p)),
   s.fts.filter (fun e => decide (e.1 ≠ p))⟩

/-- New-file step of the incremental update (`indexer.py` lines 336-357):
an `OSError` from the timestamp reads (caught at line 356) skips the whole
insert; otherwise the `files` row is inserted and, for non-empty content,
the `files_fts` row. -/
def newStep (env : Env) (s : Store) (p : String) : Store :=
  match env.mtime p, env.ctime p with
  | some m, some c =>
    let content := env.extract p
    let s1 : Store := ⟨s.files ++ [⟨p, content, extLower p, some m, some c⟩], s.fts⟩
    if content = ("") then s1 else ⟨s1.files, s1.fts ++ [(p, content)]⟩
  | _, _ => s

/-- Updated-file step of the incremental update (`indexer.py` lines
374-398): an `OSError` skips everything; otherwise the `files` row is
updated in place (content, file type, timestamps) and the `files_fts` row
is deleted and, for non-empty content, re-inserted. -/
def updStep (env : Env) (s : Store) (p : String) : Store :=
  match env.mtime p, env.ctime p with
  | some m, some c =>
    let content := env.extract p
    let files := s.files.map (fun f =>
      if f.path = p then ⟨f.path, content, extLower p, some m, some c⟩ else f)
    let fts := s.fts.filter (fun e => decide (e.1 ≠ p))
    if content = ("") then ⟨files, fts⟩ else ⟨files, fts ++ [(p, content)]⟩
  | _, _ => s

/-- The `(path, modified_date)` pairs read by
`SELECT path, modified_date FROM files` (`indexer.py` line 268). -/
def storedPairs (init : Store) : List (String × Option ℚ) :=
  init.files.map (fun f => (f.path, f.modifiedDate))

/-- The deduplicated scan result (`current_files_set`, line 279). -/
def updCur (walk : List (String × String)) (exts : List String) : List String :=
  (scanFiles walk exts).dedup

/-- The stored path set (`existing_files_set`, line 280). -/
def updKeys (init : Store) : List String :=
  ((storedPairs init).map Prod.fst).dedup

def updDel (init : Store) (walk : List (String × String)) (exts : List String) :
    List String :=
  diffDeleted (updCur walk exts) (updKeys init)

def updNew (init : Store) (walk : List (String × String)) (exts : List String) :
    List String :=
  diffNew (updCur walk exts) (updKeys init)

def updUpd (env : Env) (init : Store) (walk : List (String × String))
    (exts : List String) : List String :=
  diffUpdated env (storedPairs init) (updCur walk exts)

/-- `total_files = len(new) + len(updated) + len(deleted)` (line 299). -/
def updTotal (env : Env) (init : Store) (walk : List (String × String))
    (exts : List String) : ℕ :=
  (updNew init walk exts).length + (updUpd env init walk exts).length +
    (updDel init walk exts).length

/-- Embedding of `update_index_files` (`indexer.py` lines 238-424): read
the stored paths and mtimes, scan the directory, compute the diff, then
process deletions, new files and updates in that order, with a stop poll
before each file and `processed_count` as the poll counter; an observed
stop records `stopped` with the counters and returns.  After the loops one
final poll decides `completed` versus `stopped`.  `setupFails` injects a
run-level exception before the diff: unlike `index_files`, the counters are
initialized before the `try` (lines 253-254), so the handler at lines
418-421 runs to completion, sets both statuses to `failed` with the zero
counters preserved, and the function returns normally.  (The graceful
missing-`files`-table early exit at lines 261-265 is not modelled: the
modelled store always has its tables.) -/
def update_index_files (env : Env) (init : Store) (_idx0 : IdxStatus)
    (walk : List (String × String)) (exts : List String)
    (setupFails : Bool) : RunResult :=
  if setupFails then ⟨init, ⟨("failed"), 0, 0⟩, ("failed"), false, []⟩
  else
    let delL := updDel init walk exts
    let newL := updNew init walk exts
    let updL := updUpd env init walk exts
    let total := updTotal env init walk exts
    if total = 0 then ⟨init, ⟨("completed"), 0, 0⟩, ("completed"), false, []⟩
    else
      match fileLoop env delStep delL 0 init [] with
      | (s1, w1, c1, true) => ⟨s1, ⟨("stopped"), total, c1⟩, ("stopped"), false, w1⟩
      | (s1, w1, c1, false) =>
        match fileLoop env (newStep env) newL c1 s1 w1 with
        | (s2, w2, c2, true) => ⟨s2, ⟨("stopped"), total, c2⟩, ("stopped"), false, w2⟩
        | (s2, w2, c2, false) =>
          match fileLoop env (updStep env) updL c2 s2 w2 with
          | (s3, w3, c3, true) => ⟨s3, ⟨("stopped"), total, c3⟩, ("stopped"), false, w3⟩
          | (s3, w3, c3, false) =>
            if env.stop c3 then ⟨s3, ⟨("stopped"), total, c3⟩, ("stopped"), false, w3⟩
            else ⟨s3, ⟨("completed"), total, total⟩, ("completed"), false, w3⟩

/-- The mirror invariant: every `files_fts` row's path exists in `files`,
and no `files` row with empty content has a `files_fts` row. -/
def mirrorInv (s : Store) : Prop :=
  (∀ e ∈ s.fts, e.1 ∈ filePaths s) ∧
  (∀ f ∈ s.files, f.content = ("") → ∀ e ∈ s.fts, e.1 ≠ f.path)

instance (s : Store) : Decidable (mirrorInv s) := by
  unfold mirrorInv filePaths
  infer_instance

theorem contains_true_iff {α : Type} [DecidableEq α] (l : List α) (a : α) :
    l.contains a = true ↔ a ∈ l := by
  simp [List.contains, List.elem_iff]

theorem contains_false_iff {α : Type} [DecidableEq α] (l : List α) (a : α) :
    l.contains a = false ↔ a ∉ l := by
  rw [← Bool.not_eq_true, not_iff_not, contains_true_iff]

/-- C1: the differ of `update_index_files` partitions the scanned and stored
path sets: `new ∪ updated ∪ unchanged = current_paths`,
`deleted ∪ updated ∪ unchanged = existing_paths`, and the buckets
`new / updated / deleted / unchanged` are pairwise disjoint. -/
theorem c1_diff_partition (env : Env) (pairs : List (String × Option ℚ))
    (current : List String) :
    (∀ p, (p ∈ diffNew current (pairs.map Prod.fst) ∨
        p ∈ diffUpdated env pairs current ∨
        p ∈ diffUnchanged env pairs current) ↔ p ∈ current) ∧
    (∀ p, (p ∈ diffDeleted current (pairs.map Prod.fst) ∨
        p ∈ diffUpdated env pairs current ∨
        p ∈ diffUnchanged env pairs current) ↔ p ∈ pairs.map Prod.fst) ∧
    (∀ p, ¬ (p ∈ diffNew current (pairs.map Prod.fst) ∧
        p ∈ diffUpdated env pairs current)) ∧
    (∀ p, ¬ (p ∈ diffNew current (pairs.map Prod.fst) ∧
        p ∈ diffDeleted current (pairs.map Prod.fst))) ∧
    (∀ p, ¬ (p ∈ diffNew current (pairs.map Prod.fst) ∧
        p ∈ diffUnchanged env pairs current)) ∧
    (∀ p, ¬ (p ∈ diffDeleted current (pairs.map Prod.fst) ∧
        p ∈ diffUpdated env pairs current)) ∧
    (∀ p, ¬ (p ∈ diffDeleted current (pairs.map Prod.fst) ∧
        p ∈ diffUnchanged env pairs current)) ∧
    (∀ p, ¬ (p ∈ diffUpdated env pairs current ∧
        p ∈ diffUnchanged env pairs current)) := by
  simp only [diffNew, diffDeleted, diffUpdated, diffUnchanged, diffPotential,
    List.mem_filter, Bool.not_eq_true', contains_true_iff, contains_false_iff]
  refine ⟨?_, ?_, ?_, ?_, ?_, ?_, ?_, ?_⟩ <;> intro p <;>
    rcases h : isUpdatedFile env (lookupMtime pairs p) p <;> tauto

/-- Concrete witness instance of `c1_diff_partition`. -/
theorem c1_diff_partition_witness :
    (∀ p, (p ∈ diffNew [("a"), ("b")]
        (([(("b"), none), (("c"), some 3)] : List (String × Option ℚ)).map Prod.fst) ∨
        p ∈ diffUpdated ⟨fun _ => (""), fun _ => some 5, fun _ => some 5, fun _ => false⟩
          [(("b"), none), (("c"), some 3)] [("a"), ("b")] ∨
        p ∈ diffUnchanged ⟨fun _ => (""), fun _ => some 5, fun _ => some 5, fun _ => false⟩
          [(("b"), none), (("c"), some 3)] [("a"), ("b")]) ↔ p ∈ [("a"), ("b")]) := by
  exact (c1_diff_partition ⟨fun _ => (""), fun _ => some 5, fun _ => some 5, fun _ => false⟩
    [(("b"), none), (("c"), some 3)] [("a"), ("b")]).1

theorem mem_le_foldr_max (l : List ℕ) (a : ℕ) (h : a ∈ l) : a ≤ l.foldr max 0 := by
  induction l with
  | nil => cases h
  | cons b t ih =>
    rcases List.mem_cons.mp h with h | h
    · exact h ▸ le_max_left _ _
    · exact le_trans (ih h) (le_max_right _ _)

theorem id_lt_freshId (meta : List MetaRow) (r : MetaRow) (h : r ∈ meta) :
    r.id < freshId meta := by
  have : r.id ∈ meta.map (fun r => r.id) := List.mem_map_of_mem _ h
  exact Nat.lt_succ_of_le (mem_le_foldr_max _ _ this)

/-- C4: when per-index store initialization fails after the catalog row was
persisted, `add_index_config` rolls the row back and re-raises the error,
so the catalog is exactly as before and zero rows reference the failed
name. -/
theorem c4_rollback (meta : List MetaRow) (name target exts dbPath : String)
    (hname : name ∉ meta.map (fun r => r.name)) :
    (add_index_config meta name target exts dbPath true).1 = .initFailed ∧
    (add_index_config meta name target exts dbPath true).2 = meta ∧
    ∀ r ∈ (add_index_config meta name target exts dbPath true).2, r.name ≠ name := by
  have hc : (meta.map (fun r => r.name)).contains name = false :=
    (contains_false_iff _ _).mpr hname
  have hfilter : (meta ++ [(⟨freshId meta, name, target, exts, dbPath,
      ("not_indexed")⟩ : MetaRow)]).filter (fun r => decide (r.id ≠ freshId meta)) = meta := by
    rw [List.filter_append]
    have h1 : meta.filter (fun r => decide (r.id ≠ freshId meta)) = meta := by
      apply List.filter_eq_self.mpr
      intro r hr
      exact decide_eq_true (Nat.ne_of_lt (id_lt_freshId meta r hr))
    have h2 : [(⟨freshId meta, name, target, exts, dbPath,
        ("not_indexed")⟩ : MetaRow)].filter (fun r => decide (r.id ≠ freshId meta)) = [] := by
      simp [List.filter]
    rw [h1, h2, List.append_nil]
  refine ⟨?_, ?_, ?_⟩
  · simp only [add_index_config, hc, Bool.false_eq_true, if_false, if_true]
  · simp only [add_index_config, hc, Bool.false_eq_true, if_false, if_true]
    exact hfilter
  · simp only [add_index_config, hc, Bool.false_eq_true, if_false, if_true]
    rw [hfilter]
    intro r hr he
    exact hname (he ▸ List.mem_map_of_mem (fun r => r.name) hr)

/-- Witness for `c4_rollback` at a concrete catalog. -/
theorem c4_rollback_witness :
    (add_index_config [⟨1, ("docs"), ("/d"), (".txt"), ("indexes/a.db"), ("completed")⟩]
        ("notes") ("/n") (".md") ("indexes/b.db") true).1 = .initFailed ∧
    (add_index_config [⟨1, ("docs"), ("/d"), (".txt"), ("indexes/a.db"), ("completed")⟩]
        ("notes") ("/n") (".md") ("indexes/b.db") true).2 =
      [⟨1, ("docs"), ("/d"), (".txt"), ("indexes/a.db"), ("completed")⟩] ∧
    ∀ r ∈ (add_index_config [⟨1, ("docs"), ("/d"), (".txt"), ("indexes/a.db"), ("completed")⟩]
        ("notes") ("/n") (".md") ("indexes/b.db") true).2, r.name ≠ ("notes") :=
  c4_rollback [⟨1, ("docs"), ("/d"), (".txt"), ("indexes/a.db"), ("completed")⟩]
    ("notes") ("/n") (".md") ("indexes/b.db") (by decide)

/-- C5: `add_index_config` returns the fresh index id (and the inserted row)
on success; when the name already exists it takes the duplicate-name error
branch (`dupName`, the `-1` sentinel) and returns no id, leaving the catalog
unchanged. -/
theorem c5_add_index (meta : List MetaRow) (name target exts dbPath : String) :
    (name ∈ meta.map (fun r => r.name) →
      ∀ b, add_index_config meta name target exts dbPath b = (.dupName, meta)) ∧
    (name ∉ meta.map (fun r => r.name) →
      (add_index_config meta name target exts dbPath false).1 = .ok (freshId meta) ∧
      (add_index_config meta name target exts dbPath false).2 =
        meta ++ [⟨freshId meta, name, target, exts, dbPath, ("not_indexed")⟩]) := by
  constructor
  · intro h b
    have hc : (meta.map (fun r => r.name)).contains name = true :=
      (contains_true_iff _ _).mpr h
    simp only [add_index_config, hc, if_true]
  · intro h
    have hc : (meta.map (fun r => r.name)).contains name = false :=
      (contains_false_iff _ _).mpr h
    simp only [add_index_config, hc, Bool.false_eq_true, if_false]
    exact ⟨trivial, trivial⟩

/-- Witness for `c5_add_index` at a concrete catalog, both branches. -/
theorem c5_add_index_witness :
    (add_index_config [⟨1, ("docs"), ("/d"), (".txt"), ("indexes/a.db"), ("completed")⟩]
        ("docs") ("/n") (".md") ("indexes/b.db") false = (.dupName,
        [⟨1, ("docs"), ("/d"), (".txt"), ("indexes/a.db"), ("completed")⟩])) ∧
    ((add_index_config [⟨1, ("docs"), ("/d"), (".txt"), ("indexes/a.db"), ("completed")⟩]
        ("notes") ("/n") (".md") ("indexes/b.db") false).1 = .ok 2) :=
  ⟨(c5_add_index [⟨1, ("docs"), ("/d"), (".txt"), ("indexes/a.db"), ("completed")⟩]
      ("docs") ("/n") (".md") ("indexes/b.db")).1 (by decide) false,
   ((c5_add_index [⟨1, ("docs"), ("/d"), (".txt"), ("indexes/a.db"), ("completed")⟩]
      ("notes") ("/n") (".md") ("indexes/b.db")).2 (by decide)).1⟩

/-- C6: the spec's query-translation examples hold of `parse_search_query`:
two space-separated plain terms stay two terms joined by implicit AND, the
`OR` token is preserved, `-term` becomes a NOT-wrapped term, a double-quoted
phrase is one phrase token (not two plain terms), and the empty or
whitespace-only query yields the empty-query sentinel. -/
theorem c6_translation_examples :
    parse_search_query ("python tutorial") = some ("python tutorial") ∧
    tokLoop (("python tutorial").data) ((("python tutorial").data).length + 1) 0 [] =
      some [("python"), ("tutorial")] ∧
    parse_search_query ("python OR tutorial") = some ("python OR tutorial") ∧
    parse_search_query ("python -tutorial") = some ("python NOT tutorial") ∧
    parse_search_query ("\"machine learning\"") = some ("\"machine learning\"") ∧
    tokLoop (("\"machine learning\"").data) ((("\"machine learning\"").data).length + 1) 0 [] =
      some [("\"machine learning\"")] ∧
    parse_search_query ("") = some ("") ∧
    (∀ s : String, (∀ c ∈ s.data, isPyWs c = true) → parse_search_query s = some ("")) := by
  refine ⟨by decide, by decide, by decide, by decide, by decide, by decide, by decide, ?_⟩
  intro s h
  have hnil : stripPy s.data = [] := by
    unfold stripPy
    rw [List.dropWhile_eq_nil_iff.mpr (fun x hx => h x hx)]
    rfl
  unfold parse_search_query
  rw [hnil]
  rfl

/-- Witness instance for the hypothesis-bearing part of
`c6_translation_examples` (a whitespace-only input). -/
theorem c6_translation_examples_witness :
    (∀ c ∈ ("  ").data, isPyWs c = true) ∧ parse_search_query ("  ") = some ("") :=
  ⟨by decide, c6_translation_examples.2.2.2.2.2.2.2 ("  ") (by decide)⟩

theorem tokLoop_stuck_unmatched_quote (n : ℕ) (toks : List String) :
    tokLoop (("\"ab").data) n 0 toks = none := by
  induction n generalizing toks with
  | zero => rfl
  | succ n ih => exact ih ((tokStep (("\"ab").data) 0 toks).2)

/-- C7 fails on the code: on the unmatched-quote input `"ab` the tokenizer's
plain-word branch consumes nothing and the scan position never advances, so
the `while i < length` loop of `parse_search_query` runs forever — no
amount of fuel completes the scan and the embedding returns the
non-termination marker instead of a query string. -/
theorem c7_parser_diverges_on_unmatched_quote :
    (∀ fuel toks, tokLoop (("\"ab").data) fuel 0 toks = none) ∧
    parse_search_query ("\"ab") = none := by
  exact ⟨fun fuel toks => tokLoop_stuck_unmatched_quote fuel toks, by decide⟩

theorem useLikeSearch_iff (q : String) :
    useLikeSearch q = true ↔ ∃ t ∈ searchTerms q, (stripQuotesStr t).length ≤ 2 := by
  simp [useLikeSearch, List.any_eq_true]

theorem filterConds_no_ftsMatch (fl : Filters) (c : Cond) (hc : c ∈ filterConds fl) :
    ∀ s, c ≠ Cond.ftsMatch s := by
  intro s
  unfold filterConds at hc
  rcases List.mem_append.mp hc with h | h
  · rcases List.mem_append.mp h with h | h
    · rcases h2 : normFileTypes fl.fileTypes with _ | _ <;> rw [h2] at h <;>
        simp_all
    · rcases h2 : fl.modifiedRange with _ | ⟨a, b⟩ <;> rw [h2] at h <;> simp_all
  · rcases h2 : fl.createdRange with _ | ⟨a, b⟩ <;> rw [h2] at h <;> simp_all

/-- C8: a query with any raw term of length at most 2 (quotes stripped)
always selects the substring-fallback path — the built query has no
full-text join and no MATCH conjunct, just the per-term LIKE conjuncts
followed by the filter conjuncts; a query whose raw terms all have length
at least 3 uses the full-text path against `files_fts`. -/
theorem c8_fallback_selection (q : String) (fl : Filters) (fq : String) :
    ((∃ t ∈ searchTerms q, (stripQuotesStr t).length ≤ 2) →
      (buildSearchQuery q fl fq).usesFtsJoin = false ∧
      (∀ c ∈ (buildSearchQuery q fl fq).conds, ∀ s, c ≠ Cond.ftsMatch s) ∧
      (buildSearchQuery q fl fq).conds =
        (if (searchTerms q).map
              (fun t => Cond.contentLike (("%") ++ stripQuotesStr t ++ ("%"))) ++
            filterConds fl = [] then [Cond.trivialTrue]
         else (searchTerms q).map
              (fun t => Cond.contentLike (("%") ++ stripQuotesStr t ++ ("%"))) ++
            filterConds fl)) ∧
    ((∀ t ∈ searchTerms q, 2 < (stripQuotesStr t).length) →
      buildSearchQuery q fl fq = ⟨true, Cond.ftsMatch fq :: filterConds fl⟩) := by
  constructor
  · intro h
    have hl : useLikeSearch q = true := (useLikeSearch_iff q).mpr h
    refine ⟨?_, ?_, ?_⟩
    · simp only [buildSearchQuery, hl, if_true]
    · simp only [buildSearchQuery, hl, if_true]
      intro c hc s
      by_cases he : (searchTerms q).map
          (fun t => Cond.contentLike (("%") ++ stripQuotesStr t ++ ("%"))) ++
          filterConds fl = []
      · rw [if_pos he] at hc
        rcases List.mem_singleton.mp hc with rfl
        simp
      · rw [if_neg he] at hc
        rcases List.mem_append.mp hc with h2 | h2
        · rcases List.mem_map.mp h2 with ⟨t, -, rfl⟩
          simp
        · exact filterConds_no_ftsMatch fl c h2 s
    · simp only [buildSearchQuery, hl, if_true]
  · intro h
    have hl : useLikeSearch q = false := by
      rw [Bool.eq_false_iff]
      intro hcon
      rcases (useLikeSearch_iff q).mp hcon with ⟨t, ht, hlen⟩
      exact absurd (h t ht) (by omega)
    simp only [buildSearchQuery, hl, Bool.false_eq_true, if_false]

/-- Witness for `c8_fallback_selection`: the short-term query `ai tutorial`
falls back to LIKE, the query `abc` uses the full-text path. -/
theorem c8_fallback_selection_witness :
    ((∃ t ∈ searchTerms ("ai tutorial"), (stripQuotesStr t).length ≤ 2) ∧
      (buildSearchQuery ("ai tutorial") ⟨[], none, none⟩ ("ai tutorial")).usesFtsJoin
        = false) ∧
    ((∀ t ∈ searchTerms ("abc"), 2 < (stripQuotesStr t).length) ∧
      buildSearchQuery ("abc") ⟨[], none, none⟩ ("abc") =
        ⟨true, Cond.ftsMatch ("abc") :: filterConds ⟨[], none, none⟩⟩) :=
  ⟨⟨by decide, ((c8_fallback_selection ("ai tutorial") ⟨[], none, none⟩
      ("ai tutorial")).1 (by decide)).1⟩,
   ⟨by decide, (c8_fallback_selection ("abc") ⟨[], none, none⟩ ("abc")).2 (by decide)⟩⟩

theorem truncSnippet_length_le (s : String) : (truncSnippet s).length ≤ 203 := by
  unfold truncSnippet
  split
  · next h =>
    have h1 : (strTake 200 s ++ ("...")).length = (s.data.take 200).length + 3 := by
      show ((s.data.take 200) ++ ("...").data).length = _
      rw [List.length_append]
      rfl
    have h2 : (s.data.take 200).length ≤ 200 := by
      rw [List.length_take]
      omega
    rw [h1]
    omega
  · next h =>
    omega

/-- C9 counterexample: the claim that the number of returned results is
bounded by a fixed result-set size cap is false — neither SQL path carries
a LIMIT, so for every candidate cap there is a store on which the
substring-fallback path returns `cap + 1` rows. -/
theorem c9_no_result_cap_counterexample :
    ¬ ∃ cap : ℕ, ∀ store : Store,
      (likeResults store ("ai") ⟨[], none, none⟩).length ≤ cap := by
  rintro ⟨cap, h⟩
  have hall : ∀ f ∈ (List.range (cap + 1)).map
      (fun n => (⟨toString n, ("ai"), (".txt"), none, none⟩ : FileRec)),
      ((searchTerms ("ai")).all
        (fun t => likeMatch f.content (stripQuotesStr t)) &&
        passFilters ⟨[], none, none⟩ f) = true := by
    intro f hf
    rcases List.mem_map.mp hf with ⟨n, -, rfl⟩
    rfl
  have hlen : (likeResults ⟨(List.range (cap + 1)).map
      (fun n => (⟨toString n, ("ai"), (".txt"), none, none⟩ : FileRec)), []⟩
      ("ai") ⟨[], none, none⟩).length = cap + 1 := by
    unfold likeResults
    rw [List.length_map, List.filter_eq_self.mpr hall, List.length_map,
      List.length_range]
  have hcap := h ⟨(List.range (cap + 1)).map
      (fun n => (⟨toString n, ("ai"), (".txt"), none, none⟩ : FileRec)), []⟩
  omega

/-- C9 amended: no result-set size cap is applied — on both paths the
number of rows returned equals the number of matching rows exactly; only
each row's snippet is bounded, to at most 203 characters (200 plus the
ellipsis). -/
theorem c9_results_uncapped_snippet_bounded (store : Store) (q fq : String)
    (fl : Filters) (m : String → String → Bool) (sn : String → String) :
    (likeResults store q fl).length = (store.files.filter (fun f =>
        (searchTerms q).all (fun t => likeMatch f.content (stripQuotesStr t)) &&
        passFilters fl f)).length ∧
    (ftsResults m sn store fq fl).length =
      ((store.fts.filter (fun e => m e.2 fq)).map (fun e =>
        (store.files.filter
          (fun f => decide (f.path = e.1) && passFilters fl f)).length)).sum ∧
    (∀ r ∈ likeResults store q fl, r.snippet.length ≤ 203) ∧
    (∀ r ∈ ftsResults m sn store fq fl, r.snippet.length ≤ 203) := by
  refine ⟨?_, ?_, ?_, ?_⟩
  · simp [likeResults]
  · simp only [ftsResults, List.length_flatten, List.map_map]
    congr 1
    apply List.map_congr_left
    intro e _
    simp [List.length_map]
  · intro r hr
    rcases List.mem_map.mp hr with ⟨f, -, rfl⟩
    exact truncSnippet_length_le _
  · intro r hr
    rcases List.mem_flatten.mp hr with ⟨l, hl, hrl⟩
    rcases List.mem_map.mp hl with ⟨e, -, rfl⟩
    rcases List.mem_map.mp hrl with ⟨f, -, rfl⟩
    exact truncSnippet_length_le _

/-- Witness for `c9_results_uncapped_snippet_bounded` at a concrete store
and query. -/
theorem c9_results_uncapped_witness :
    (likeResults ⟨[⟨("p"), ("ai"), (".txt"), none, none⟩], []⟩ ("ai")
      ⟨[], none, none⟩).length =
    (([⟨("p"), ("ai"), (".txt"), none, none⟩] : List FileRec).filter (fun f =>
        (searchTerms ("ai")).all (fun t => likeMatch f.content (stripQuotesStr t)) &&
        passFilters ⟨[], none, none⟩ f)).length :=
  (c9_results_uncapped_snippet_bounded ⟨[⟨("p"), ("ai"), (".txt"), none, none⟩], []⟩
    ("ai") ("ai") ⟨[], none, none⟩ (fun _ _ => true) (fun s => s)).1

/-- C10 on the failing scenario: a run-level failure before the
file-processing loop of the full-rebuild `index_files` leaves the catalog
status at `running` and never marks the per-index IndexingStatus `failed`,
because the `except` handler itself raises `NameError` on the unbound
locals `total_files`/`i` — contradicting the claim that both statuses
become `failed`; the incremental `update_index_files`, whose counters are
initialized before its `try`, does satisfy the claim on the same
scenario. -/
theorem c10_preloop_failure_status (env : Env) (init : Store) (idx0 : IdxStatus)
    (walk : List (String × String)) (exts : List String) :
    ((index_files env init idx0 walk exts true).meta = ("running") ∧
      (index_files env init idx0 walk exts true).meta ≠ ("failed") ∧
      (index_files env init idx0 walk exts true).idx = idx0 ∧
      (index_files env init idx0 walk exts true).raised = true) ∧
    ((update_index_files env init idx0 walk exts true).idx = ⟨("failed"), 0, 0⟩ ∧
      (update_index_files env init idx0 walk exts true).meta = ("failed") ∧
      (update_index_files env init idx0 walk exts true).raised = false) :=
  ⟨⟨rfl, (by decide : (("running") : String) ≠ ("failed")), rfl, rfl⟩, ⟨rfl, rfl, rfl⟩⟩

theorem mem_filePaths {s : Store} {q : String} :
    q ∈ filePaths s ↔ ∃ f ∈ s.files, f.path = q := by
  simp [filePaths, List.mem_map]

theorem mirrorInv_empty : mirrorInv emptyStore := by
  constructor <;> simp [emptyStore]

theorem mkFileRec_path (env : Env) (p : String) : (mkFileRec env p).path = p := by
  unfold mkFileRec
  rcases env.mtime p with _ | m <;> rcases env.ctime p with _ | c <;> rfl

/-- Inserting a fresh-path row into `files`, and into `files_fts` exactly
when its content is non-empty, preserves the mirror invariant. -/
theorem insertRow_inv (s : Store) (r : FileRec) (hinv : mirrorInv s)
    (hp : r.path ∉ filePaths s) :
    mirrorInv ⟨s.files ++ [r],
      if r.content = ("") then s.fts else s.fts ++ [(r.path, r.content)]⟩ := by
  obtain ⟨h1, h2⟩ := hinv
  constructor
  · intro e he
    rw [mem_filePaths]
    by_cases hc : r.content = ("")
    · rw [if_pos hc] at he
      obtain ⟨f, hf, hfp⟩ := mem_filePaths.mp (h1 e he)
      exact ⟨f, List.mem_append_left _ hf, hfp⟩
    · rw [if_neg hc] at he
      rcases List.mem_append.mp he with he' | he'
      · obtain ⟨f, hf, hfp⟩ := mem_filePaths.mp (h1 e he')
        exact ⟨f, List.mem_append_left _ hf, hfp⟩
      · rcases List.mem_singleton.mp he'
        exact ⟨r, List.mem_append_right _ (List.mem_singleton_self r), rfl⟩
  · intro f hf hfc e he hep
    rcases List.mem_append.mp hf with hf' | hf'
    · have hfp : f.path ∈ filePaths s := List.mem_map_of_mem _ hf'
      by_cases hc : r.content = ("")
      · rw [if_pos hc] at he
        exact h2 f hf' hfc e he hep
      · rw [if_neg hc] at he
        rcases List.mem_append.mp he with he' | he'
        · exact h2 f hf' hfc e he' hep
        · rcases List.mem_singleton.mp he'
          apply hp
          rw [show r.path = f.path from hep]
          exact hfp
    · rcases List.mem_singleton.mp hf'
      by_cases hc : r.content = ("")
      · rw [if_pos hc] at he
        have : e.1 ∈ filePaths s := h1 e he
        exact hp (hep ▸ this)
      · exact hc hfc

theorem processFileFull_eq (env : Env) (s : Store) (p : String) :
    processFileFull env s p =
      ⟨s.files ++ [mkFileRec env p],
        if (mkFileRec env p).content = ("") then s.fts
        else s.fts ++ [((mkFileRec env p).path, (mkFileRec env p).content)]⟩ := by
  simp only [processFileFull]
  by_cases hc : (mkFileRec env p).content = ("") <;> simp [hc, mkFileRec_path]

theorem processFileFull_inv (env : Env) (s : Store) (p : String)
    (hinv : mirrorInv s) (hp : p ∉ filePaths s) :
    mirrorInv (processFileFull env s p) := by
  rw [processFileFull_eq]
  exact insertRow_inv s (mkFileRec env p) hinv (by rwa [mkFileRec_path])

theorem processFileFull_filePaths (env : Env) (s : Store) (p : String) :
    filePaths (processFileFull env s p) = filePaths s ++ [p] := by
  rw [processFileFull_eq]
  simp [filePaths, mkFileRec_path]

theorem foldl_processFileFull_inv (env : Env) (ps : List String) :
    ∀ s : Store, mirrorInv s → ps.Nodup → (∀ p ∈ ps, p ∉ filePaths s) →
      mirrorInv (ps.foldl (processFileFull env) s) := by
  induction ps with
  | nil => intro s hinv _ _; exact hinv
  | cons p rest ih =>
    intro s hinv hnd hnotin
    simp only [List.foldl_cons]
    apply ih
    · exact processFileFull_inv env s p hinv (hnotin p (List.mem_cons_self p rest))
    · exact (List.nodup_cons.mp hnd).2
    · intro q hq hmem
      rw [processFileFull_filePaths, List.mem_append] at hmem
      rcases hmem with h | h
      · exact hnotin q (List.mem_cons_of_mem p hq) h
      · rcases List.mem_singleton.mp h
        exact (List.nodup_cons.mp hnd).1 hq

theorem fileLoop_store_prefix (env : Env) (step : Store → String → Store)
    (ps : List String) : ∀ (c : ℕ) (s : Store) (w : List String),
    ∃ n, n ≤ ps.length ∧
      (fileLoop env step ps c s w).1 = (ps.take n).foldl step s := by
  induction ps with
  | nil => intro c s w; exact ⟨0, by simp, rfl⟩
  | cons p rest ih =>
    intro c s w
    cases h : env.stop c with
    | true =>
      refine ⟨0, by simp, ?_⟩
      simp [fileLoop, h]
    | false =>
      obtain ⟨n, hn, hs⟩ := ih (c + 1) (step s p) (w ++ [p])
      refine ⟨n + 1, by simpa using hn, ?_⟩
      simp only [fileLoop, h, Bool.false_eq_true, if_false]
      rw [hs]
      simp [List.take_succ_cons]

theorem delStep_inv (s : Store) (p : String) (hinv : mirrorInv s) :
    mirrorInv (delStep s p) := by
  obtain ⟨h1, h2⟩ := hinv
  constructor
  · intro e he
    obtain ⟨he', hne⟩ := List.mem_filter.mp he
    obtain ⟨f, hf, hfp⟩ := mem_filePaths.mp (h1 e he')
    refine mem_filePaths.mpr ⟨f, List.mem_filter.mpr ⟨hf, ?_⟩, hfp⟩
    rw [decide_eq_true_eq] at hne ⊢
    rw [hfp]
    exact hne
  · intro f hf hfc e he
    exact h2 f (List.mem_filter.mp hf).1 hfc e (List.mem_filter.mp he).1

theorem delStep_paths (s : Store) (p q : String) :
    q ∈ filePaths (delStep s p) ↔ q ∈ filePaths s ∧ q ≠ p := by
  simp only [delStep, filePaths, List.mem_map, List.mem_filter, decide_eq_true_eq]
  constructor
  · rintro ⟨f, ⟨hf, hne⟩, rfl⟩
    exact ⟨⟨f, hf, rfl⟩, hne⟩
  · rintro ⟨⟨f, hf, rfl⟩, hne⟩
    exact ⟨f, ⟨hf, hne⟩, rfl⟩

theorem foldl_delStep_inv (ps : List String) :
    ∀ s : Store, mirrorInv s → mirrorInv (ps.foldl delStep s) := by
  induction ps with
  | nil => intro s hinv; exact hinv
  | cons p rest ih =>
    intro s hinv
    simp only [List.foldl_cons]
    exact ih _ (delStep_inv s p hinv)

theorem foldl_delStep_paths (ps : List String) :
    ∀ (s : Store) (q : String),
      q ∈ filePaths (ps.foldl delStep s) ↔ q ∈ filePaths s ∧ q ∉ ps := by
  induction ps with
  | nil => intro s q; simp
  | cons p rest ih =>
    intro s q
    simp only [List.foldl_cons, ih, delStep_paths, List.mem_cons]
    constructor
    · rintro ⟨⟨hq, hne⟩, hnr⟩
      exact ⟨hq, by rintro (h | h) <;> [exact hne h; exact hnr h]⟩
    · rintro ⟨hq, hn⟩
      exact ⟨⟨hq, fun h => hn (Or.inl h)⟩, fun h => hn (Or.inr h)⟩

theorem newStep_eq_insert (env : Env) (s : Store) (p : String) (m c : ℚ)
    (hm : env.mtime p = some m) (hc : env.ctime p = some c) :
    newStep env s p = processFileFull env s p := by
  unfold newStep processFileFull mkFileRec
  rw [hm, hc]

theorem newStep_eq_skip (env : Env) (s : Store) (p : String)
    (h : env.mtime p = none ∨ env.ctime p = none) :
    newStep env s p = s := by
  unfold newStep
  rcases hm : env.mtime p with _ | m <;> rcases hc : env.ctime p with _ | c <;>
    first
      | rfl
      | (rcases h with h | h <;> simp_all)

theorem newStep_inv (env : Env) (s : Store) (p : String)
    (hinv : mirrorInv s) (hp : p ∉ filePaths s) :
    mirrorInv (newStep env s p) := by
  rcases hm : env.mtime p with _ | m
  · rw [newStep_eq_skip env s p (Or.inl hm)]; exact hinv
  · rcases hc : env.ctime p with _ | c
    · rw [newStep_eq_skip env s p (Or.inr hc)]; exact hinv
    · rw [newStep_eq_insert env s p m c hm hc]
      exact processFileFull_inv env s p hinv hp

theorem newStep_paths_sub (env : Env) (s : Store) (p q : String)
    (h : q ∈ filePaths (newStep env s p)) : q ∈ filePaths s ∨ q = p := by
  rcases hm : env.mtime p with _ | m
  · rw [newStep_eq_skip env s p (Or.inl hm)] at h; exact Or.inl h
  · rcases hc : env.ctime p with _ | c
    · rw [newStep_eq_skip env s p (Or.inr hc)] at h; exact Or.inl h
    · rw [newStep_eq_insert env s p m c hm hc,
        processFileFull_filePaths, List.mem_append] at h
      rcases h with h | h
      · exact Or.inl h
      · exact Or.inr (List.mem_singleton.mp h)

theorem newStep_paths_sup (env : Env) (s : Store) (p q : String)
    (h : q ∈ filePaths s) : q ∈ filePaths (newStep env s p) := by
  rcases hm : env.mtime p with _ | m
  · rw [newStep_eq_skip env s p (Or.inl hm)]; exact h
  · rcases hc : env.ctime p with _ | c
    · rw [newStep_eq_skip env s p (Or.inr hc)]; exact h
    · rw [newStep_eq_insert env s p m c hm hc, processFileFull_filePaths,
        List.mem_append]
      exact Or.inl h

theorem foldl_newStep_inv (env : Env) (ps : List String) :
    ∀ s : Store, mirrorInv s → ps.Nodup → (∀ p ∈ ps, p ∉ filePaths s) →
      mirrorInv (ps.foldl (newStep env) s) := by
  induction ps with
  | nil => intro s hinv _ _; exact hinv
  | cons p rest ih =>
    intro s hinv hnd hnotin
    simp only [List.foldl_cons]
    apply ih
    · exact newStep_inv env s p hinv (hnotin p (List.mem_cons_self p rest))
    · exact (List.nodup_cons.mp hnd).2
    · intro q hq hmem
      rcases newStep_paths_sub env s p q hmem with h | h
      · exact hnotin q (List.mem_cons_of_mem p hq) h
      · rw [h] at hq
        exact (List.nodup_cons.mp hnd).1 hq

theorem foldl_newStep_paths_sup (env : Env) (ps : List String) :
    ∀ (s : Store) (q : String), q ∈ filePaths s →
      q ∈ filePaths (ps.foldl (newStep env) s) := by
  induction ps with
  | nil => intro s q h; exact h
  | cons p rest ih =>
    intro s q h
    simp only [List.foldl_cons]
    exact ih _ _ (newStep_paths_sup env s p q h)

theorem updStep_eq_skip (env : Env) (s : Store) (p : String)
    (h : env.mtime p = none ∨ env.ctime p = none) :
    updStep env s p = s := by
  unfold updStep
  rcases hm : env.mtime p with _ | m <;> rcases hc : env.ctime p with _ | c <;>
    first
      | rfl
      | (rcases h with h | h <;> simp_all)

theorem updStep_eq_upd (env : Env) (s : Store) (p : String) (m c : ℚ)
    (hm : env.mtime p = some m) (hc : env.ctime p = some c) :
    updStep env s p =
      ⟨s.files.map (fun f => if f.path = p then
          ⟨f.path, env.extract p, extLower p, some m, some c⟩ else f),
        if env.extract p = ("") then s.fts.filter (fun e => decide (e.1 ≠ p))
        else s.fts.filter (fun e => decide (e.1 ≠ p)) ++ [(p, env.extract p)]⟩ := by
  unfold updStep
  rw [hm, hc]
  by_cases hz : env.extract p = ("") <;> simp [hz]

theorem updStep_paths (env : Env) (s : Store) (p : String) :
    filePaths (updStep env s p) = filePaths s := by
  rcases hm : env.mtime p with _ | m
  · rw [updStep_eq_skip env s p (Or.inl hm)]
  · rcases hc : env.ctime p with _ | c
    · rw [updStep_eq_skip env s p (Or.inr hc)]
    · rw [updStep_eq_upd env s p m c hm hc]
      simp only [filePaths]
      rw [List.map_map]
      apply List.map_congr_left
      intro f _
      by_cases hf : f.path = p <;> simp [hf]

theorem updStep_inv (env : Env) (s : Store) (p : String)
    (hinv : mirrorInv s) (hp : p ∈ filePaths s) :
    mirrorInv (updStep env s p) := by
  obtain ⟨h1, h2⟩ := hinv
  have hpaths := updStep_paths env s p
  rcases hm : env.mtime p with _ | m
  · rw [updStep_eq_skip env s p (Or.inl hm)]; exact ⟨h1, h2⟩
  rcases hc : env.ctime p with _ | c
  · rw [updStep_eq_skip env s p (Or.inr hc)]; exact ⟨h1, h2⟩
  rw [updStep_eq_upd env s p m c hm hc] at hpaths ⊢
  constructor
  · intro e he
    rw [hpaths]
    by_cases hz : env.extract p = ("")
    · rw [if_pos hz] at he
      exact h1 e (List.mem_filter.mp he).1
    · rw [if_neg hz] at he
      rcases List.mem_append.mp he with he' | he'
      · exact h1 e (List.mem_filter.mp he').1
      · rcases List.mem_singleton.mp he'
        exact hp
  · intro f hf hfc e he hep
    obtain ⟨g, hg, hgf⟩ := List.mem_map.mp hf
    by_cases hgp : g.path = p
    · rw [if_pos hgp] at hgf
      by_cases hz : env.extract p = ("")
      · rw [if_pos hz] at he
        obtain ⟨_, hne⟩ := List.mem_filter.mp he
        rw [decide_eq_true_eq] at hne
        apply hne
        rw [hep, ← hgf]
        exact hgp
      · apply hz
        rw [← hgf] at hfc
        exact hfc
    · rw [if_neg hgp] at hgf
      rcases hgf
      by_cases hz : env.extract p = ("")
      · rw [if_pos hz] at he
        exact h2 f hg hfc e (List.mem_filter.mp he).1 hep
      · rw [if_neg hz] at he
        rcases List.mem_append.mp he with he' | he'
        · exact h2 f hg hfc e (List.mem_filter.mp he').1 hep
        · rcases List.mem_singleton.mp he'
          exact hgp hep.symm

theorem foldl_updStep_inv (env : Env) (ps : List String) :
    ∀ s : Store, mirrorInv s → (∀ p ∈ ps, p ∈ filePaths s) →
      mirrorInv (ps.foldl (updStep env) s) := by
  induction ps with
  | nil => intro s hinv _; exact hinv
  | cons p rest ih =>
    intro s hinv hin
    simp only [List.foldl_cons]
    apply ih
    · exact updStep_inv env s p hinv (hin p (List.mem_cons_self p rest))
    · intro q hq
      rw [updStep_paths]
      exact hin q (List.mem_cons_of_mem p hq)

theorem fileLoop_complete (env : Env) (step : Store → String → Store)
    (ps : List String) : ∀ (c : ℕ) (s : Store) (w : List String) (s' : Store)
      (w' : List String) (c' : ℕ),
    fileLoop env step ps c s w = (s', w', c', false) →
    s' = ps.foldl step s ∧ w' = w ++ ps ∧ c' = c + ps.length := by
  induction ps with
  | nil =>
    intro c s w s' w' c' h
    simp only [fileLoop, Prod.mk.injEq] at h
    obtain ⟨h1, h2, h3, -⟩ := h
    exact ⟨h1.symm, by simp [← h2], by simp [← h3]⟩
  | cons p rest ih =>
    intro c s w s' w' c' h
    simp only [fileLoop] at h
    cases hstop : env.stop c with
    | true =>
      rw [hstop] at h
      simp only [if_true, Prod.mk.injEq] at h
      exact absurd h.2.2.2 (by decide)
    | false =>
      rw [hstop] at h
      simp only [Bool.false_eq_true, if_false] at h
      obtain ⟨h1, h2, h3⟩ := ih (c + 1) (step s p) (w ++ [p]) s' w' c' h
      refine ⟨h1, ?_, ?_⟩
      · rw [h2, List.append_assoc]
        rfl
      · rw [h3]
        simp only [List.length_cons]
        omega

theorem index_files_store_prefix (env : Env) (init : Store) (idx0 : IdxStatus)
    (walk : List (String × String)) (exts : List String) :
    (index_files env init idx0 walk exts false).store = emptyStore ∨
    ∃ n, n ≤ (scanFiles walk exts).length ∧
      (index_files env init idx0 walk exts false).store =
        ((scanFiles walk exts).take n).foldl (processFileFull env) emptyStore := by
  unfold index_files
  simp only [Bool.false_eq_true, if_false]
  by_cases h0 : (scanFiles walk exts).length = 0
  · rw [if_pos h0]
    left
    rfl
  · rw [if_neg h0]
    right
    obtain ⟨n, hn, hs⟩ := fileLoop_store_prefix env (processFileFull env)
      (scanFiles walk exts) 0 emptyStore []
    rcases hr : fileLoop env (processFileFull env) (scanFiles walk exts) 0
      emptyStore [] with ⟨s, w, j, broke⟩
    rw [hr] at hs
    refine ⟨n, hn, ?_⟩
    cases broke <;> (repeat' split) <;> exact hs

theorem storedPairs_fst (init : Store) :
    (storedPairs init).map Prod.fst = filePaths init := by
  simp [storedPairs, filePaths, List.map_map, Function.comp]

theorem mem_updKeys (init : Store) (q : String) :
    q ∈ updKeys init ↔ q ∈ filePaths init := by
  rw [updKeys, List.mem_dedup, storedPairs_fst]

theorem updNew_not_stored (init : Store) (walk : List (String × String))
    (exts : List String) (q : String) (h : q ∈ updNew init walk exts) :
    q ∉ filePaths init := by
  unfold updNew diffNew at h
  obtain ⟨-, hq⟩ := List.mem_filter.mp h
  rw [Bool.not_eq_true', contains_false_iff] at hq
  intro hmem
  exact hq ((mem_updKeys init q).mpr hmem)

theorem updNew_nodup (init : Store) (walk : List (String × String))
    (exts : List String) : (updNew init walk exts).Nodup :=
  (List.nodup_dedup _).filter _

theorem updUpd_mem (env : Env) (init : Store) (walk : List (String × String))
    (exts : List String) (q : String) (h : q ∈ updUpd env init walk exts) :
    q ∈ filePaths init ∧ q ∉ updDel init walk exts := by
  unfold updUpd diffUpdated diffPotential at h
  obtain ⟨hq, -⟩ := List.mem_filter.mp h
  obtain ⟨hcur, hkeys⟩ := List.mem_filter.mp hq
  constructor
  · rw [← storedPairs_fst]
    exact (contains_true_iff _ _).mp hkeys
  · unfold updDel diffDeleted
    intro hdel
    obtain ⟨-, hnc⟩ := List.mem_filter.mp hdel
    rw [Bool.not_eq_true', contains_false_iff] at hnc
    exact hnc hcur

theorem update_index_files_completed_store (env : Env) (init : Store)
    (idx0 : IdxStatus) (walk : List (String × String)) (exts : List String)
    (hcomp : (update_index_files env init idx0 walk exts false).idx.status =
      ("completed")) :
    (update_index_files env init idx0 walk exts false).store = init ∨
    (update_index_files env init idx0 walk exts false).store =
      (updUpd env init walk exts).foldl (updStep env)
        ((updNew init walk exts).foldl (newStep env)
          ((updDel init walk exts).foldl delStep init)) := by
  unfold update_index_files at hcomp ⊢
  simp only [Bool.false_eq_true, if_false] at hcomp ⊢
  by_cases h0 : updTotal env init walk exts = 0
  · rw [if_pos h0] at hcomp ⊢
    left
    rfl
  · rw [if_neg h0] at hcomp ⊢
    right
    split at hcomp
    · next s1 w1 c1 hr1 =>
      simp at hcomp
    · next s1 w1 c1 hr1 =>
      split at hcomp
      · next s2 w2 c2 hr2 =>
        simp at hcomp
      · next s2 w2 c2 hr2 =>
        split at hcomp
        · next s3 w3 c3 hr3 =>
          simp at hcomp
        · next s3 w3 c3 hr3 =>
          cases hstop : env.stop c3 with
          | true =>
            rw [hstop] at hcomp
            simp at hcomp
          | false =>
            obtain ⟨hs1, -, -⟩ := fileLoop_complete env delStep _ _ _ _ _ _ _ hr1
            obtain ⟨hs2, -, -⟩ :=
              fileLoop_complete env (newStep env) _ _ _ _ _ _ _ hr2
            obtain ⟨hs3, -, -⟩ :=
              fileLoop_complete env (updStep env) _ _ _ _ _ _ _ hr3
            simp only [hr1, hr2, hr3, hstop, Bool.false_eq_true, if_false]
            rw [hs3, hs2, hs1]

/-- C2: after any indexing run that finishes with IndexingStatus
`completed`, the store satisfies the mirror invariant — every `files_fts`
row's path exists in `files`, and no empty-content `files` row has a
`files_fts` row.  The full rebuild needs the scanned paths to be distinct
(guaranteed by `os.walk` and by the UNIQUE path constraint); the
incremental run preserves the invariant from the store it starts from. -/
theorem c2_mirror_invariant :
    (∀ (env : Env) (init : Store) (idx0 : IdxStatus)
        (walk : List (String × String)) (exts : List String),
      (scanFiles walk exts).Nodup →
      (index_files env init idx0 walk exts false).idx.status = ("completed") →
      mirrorInv (index_files env init idx0 walk exts false).store) ∧
    (∀ (env : Env) (init : Store) (idx0 : IdxStatus)
        (walk : List (String × String)) (exts : List String),
      mirrorInv init →
      (update_index_files env init idx0 walk exts false).idx.status = ("completed") →
      mirrorInv (update_index_files env init idx0 walk exts false).store) := by
  constructor
  · intro env init idx0 walk exts hnd _
    rcases index_files_store_prefix env init idx0 walk exts with h | ⟨n, -, h⟩
    · rw [h]
      exact mirrorInv_empty
    · rw [h]
      apply foldl_processFileFull_inv
      · exact mirrorInv_empty
      · exact hnd.sublist (List.take_sublist n _)
      · intro p _ hmem
        simp [emptyStore, filePaths] at hmem
  · intro env init idx0 walk exts hinv hcomp
    rcases update_index_files_completed_store env init idx0 walk exts hcomp
      with h | h
    · rw [h]
      exact hinv
    · rw [h]
      apply foldl_updStep_inv
      · apply foldl_newStep_inv
        · exact foldl_delStep_inv _ _ hinv
        · exact updNew_nodup init walk exts
        · intro p hp hmem
          rw [foldl_delStep_paths] at hmem
          exact updNew_not_stored init walk exts p hp hmem.1
      · intro p hp
        obtain ⟨hmem, hdel⟩ := updUpd_mem env init walk exts p hp
        apply foldl_newStep_paths_sup
        rw [foldl_delStep_paths]
        exact ⟨hmem, hdel⟩

/-- Witness for `c2_mirror_invariant`: a two-file full rebuild (one file
with empty extracted content) and an incremental run that deletes one file
and adds another, both completing, both invariant-preserving. -/
theorem c2_mirror_invariant_witness :
    ((scanFiles [(("d"), ("a.txt")), (("d"), ("b.txt"))] [(".txt")]).Nodup ∧
      mirrorInv (index_files
        ⟨fun p => if p = ("d/b.txt") then ("") else ("hello"),
          fun _ => some 5, fun _ => some 6, fun _ => false⟩
        emptyStore ⟨("not_started"), 0, 0⟩
        [(("d"), ("a.txt")), (("d"), ("b.txt"))] [(".txt")] false).store) ∧
    (mirrorInv (⟨[⟨("d/a.txt"), ("hi"), (".txt"), some 1, some 1⟩],
        [(("d/a.txt"), ("hi"))]⟩ : Store) ∧
      mirrorInv (update_index_files
        ⟨fun _ => ("hello"), fun _ => some 5, fun _ => some 6, fun _ => false⟩
        ⟨[⟨("d/a.txt"), ("hi"), (".txt"), some 1, some 1⟩],
          [(("d/a.txt"), ("hi"))]⟩
        ⟨("completed"), 1, 1⟩
        [(("d"), ("b.txt")), (("d"), ("c.txt"))] [(".txt")] false).store) :=
  ⟨⟨by decide, c2_mirror_invariant.1
      ⟨fun p => if p = ("d/b.txt") then ("") else ("hello"),
        fun _ => some 5, fun _ => some 6, fun _ => false⟩
      emptyStore ⟨("not_started"), 0, 0⟩
      [(("d"), ("a.txt")), (("d"), ("b.txt"))] [(".txt")]
      (by decide) (by decide)⟩,
   ⟨by decide, c2_mirror_invariant.2
      ⟨fun _ => ("hello"), fun _ => some 5, fun _ => some 6, fun _ => false⟩
      ⟨[⟨("d/a.txt"), ("hi"), (".txt"), some 1, some 1⟩],
        [(("d/a.txt"), ("hi"))]⟩
      ⟨("completed"), 1, 1⟩
      [(("d"), ("b.txt")), (("d"), ("c.txt"))] [(".txt")]
      (by decide) (by decide)⟩⟩

theorem fileLoop_stops (env : Env) (step : Store → String → Store) (k : ℕ)
    (hpoll : ∀ j, env.stop j = decide (k ≤ j)) (ps : List String) :
    ∀ (c : ℕ) (s : Store) (w : List String), c ≤ k → k < c + ps.length →
    fileLoop env step ps c s w =
      ((ps.take (k - c)).foldl step s, w ++ ps.take (k - c), k, true) := by
  induction ps with
  | nil =>
    intro c s w h1 h2
    simp only [List.length_nil] at h2
    omega
  | cons p rest ih =>
    intro c s w h1 h2
    by_cases hck : c = k
    · subst hck
      have hstop : env.stop c = true := by
        rw [hpoll]
        simp
      simp [fileLoop, hstop]
    · have hlt : c < k := lt_of_le_of_ne h1 hck
      have hstop : env.stop c = false := by
        rw [hpoll]
        simp
        omega
      simp only [fileLoop, hstop, Bool.false_eq_true, if_false]
      rw [ih (c + 1) (step s p) (w ++ [p]) (by omega)
        (by simp only [List.length_cons] at h2; omega)]
      have hkc : k - c = (k - (c + 1)) + 1 := by omega
      rw [hkc]
      simp [List.take_succ_cons, List.append_assoc]

theorem fileLoop_no_stop (env : Env) (step : Store → String → Store) (k : ℕ)
    (hpoll : ∀ j, env.stop j = decide (k ≤ j)) (ps : List String) :
    ∀ (c : ℕ) (s : Store) (w : List String), c + ps.length ≤ k →
    fileLoop env step ps c s w = (ps.foldl step s, w ++ ps, c + ps.length, false) := by
  induction ps with
  | nil =>
    intro c s w _
    simp [fileLoop]
  | cons p rest ih =>
    intro c s w h
    simp only [List.length_cons] at h
    have hstop : env.stop c = false := by
      rw [hpoll]
      simp
      omega
    simp only [fileLoop, hstop, Bool.false_eq_true, if_false]
    rw [ih (c + 1) (step s p) (w ++ [p]) (by omega)]
    have hc : c + 1 + rest.length = c + (rest.length + 1) := by omega
    simp [List.foldl_cons, List.append_assoc, hc]

/-- C3: with the stop flag first observed set at poll `k` (and staying set),
a run in either mode that has more than `k` planned file operations stops
exactly there: the per-index IndexingStatus becomes `stopped` with
`processed_files = k < total_files`, the catalog status becomes `stopped`,
and the processed-path list is exactly the first `k` planned operations —
no file after the observed stop point is touched. -/
theorem c3_cancellation :
    (∀ (env : Env) (init : Store) (idx0 : IdxStatus)
        (walk : List (String × String)) (exts : List String) (k : ℕ),
      (∀ j, env.stop j = decide (k ≤ j)) →
      k < (scanFiles walk exts).length →
      (index_files env init idx0 walk exts false).idx =
        ⟨("stopped"), (scanFiles walk exts).length, k⟩ ∧
      (index_files env init idx0 walk exts false).meta = ("stopped") ∧
      (index_files env init idx0 walk exts false).writes =
        (scanFiles walk exts).take k ∧
      (index_files env init idx0 walk exts false).idx.processed <
        (index_files env init idx0 walk exts false).idx.total) ∧
    (∀ (env : Env) (init : Store) (idx0 : IdxStatus)
        (walk : List (String × String)) (exts : List String) (k : ℕ),
      (∀ j, env.stop j = decide (k ≤ j)) →
      k < updTotal env init walk exts →
      (update_index_files env init idx0 walk exts false).idx =
        ⟨("stopped"), updTotal env init walk exts, k⟩ ∧
      (update_index_files env init idx0 walk exts false).meta = ("stopped") ∧
      (update_index_files env init idx0 walk exts false).writes =
        (updDel init walk exts ++ updNew init walk exts ++
          updUpd env init walk exts).take k ∧
      (update_index_files env init idx0 walk exts false).idx.processed <
        (update_index_files env init idx0 walk exts false).idx.total) := by
  constructor
  · intro env init idx0 walk exts k hpoll hk
    have h0 : ¬ (scanFiles walk exts).length = 0 := by omega
    have hloop := fileLoop_stops env (processFileFull env) k hpoll
      (scanFiles walk exts) 0 emptyStore [] (Nat.zero_le k) (by omega)
    have hfp : env.stop (k + 1) = true := by
      rw [hpoll]
      simp
    have hres : index_files env init idx0 walk exts false =
        ⟨((scanFiles walk exts).take k).foldl (processFileFull env) emptyStore,
          ⟨("stopped"), (scanFiles walk exts).length, k⟩, ("stopped"), false,
          (scanFiles walk exts).take k⟩ := by
      unfold index_files
      simp only [Bool.false_eq_true, if_false, if_neg h0]
      rw [hloop]
      simp [hfp]
    rw [hres]
    exact ⟨rfl, rfl, rfl, hk⟩
  · intro env init idx0 walk exts k hpoll hk
    have h0 : ¬ updTotal env init walk exts = 0 := by omega
    have hfp : env.stop k = true := by
      rw [hpoll]
      simp
    by_cases hk1 : k < (updDel init walk exts).length
    · have hloop := fileLoop_stops env delStep k hpoll
        (updDel init walk exts) 0 init [] (Nat.zero_le k) (by omega)
      have hres : update_index_files env init idx0 walk exts false =
          ⟨((updDel init walk exts).take k).foldl delStep init,
            ⟨("stopped"), updTotal env init walk exts, k⟩, ("stopped"), false,
            (updDel init walk exts).take k⟩ := by
        unfold update_index_files
        simp only [Bool.false_eq_true, if_false, if_neg h0]
        simp only [hloop]
        simp
      rw [hres]
      refine ⟨rfl, rfl, ?_, hk⟩
      rw [List.take_append_of_le_length, List.take_append_of_le_length]
      · omega
      · rw [List.length_append]
        omega
    · by_cases hk2 : k < (updDel init walk exts).length + (updNew init walk exts).length
      · have hloop1 := fileLoop_no_stop env delStep k hpoll
          (updDel init walk exts) 0 init [] (by omega)
        have hloop2 := fileLoop_stops env (newStep env) k hpoll
          (updNew init walk exts) (0 + (updDel init walk exts).length)
          ((updDel init walk exts).foldl delStep init)
          ([] ++ updDel init walk exts) (by omega) (by omega)
        have hres : update_index_files env init idx0 walk exts false =
            ⟨((updNew init walk exts).take (k - (updDel init walk exts).length)).foldl
                (newStep env) ((updDel init walk exts).foldl delStep init),
              ⟨("stopped"), updTotal env init walk exts, k⟩, ("stopped"), false,
              updDel init walk exts ++
                (updNew init walk exts).take (k - (updDel init walk exts).length)⟩ := by
          unfold update_index_files
          simp only [Bool.false_eq_true, if_false, if_neg h0]
          simp only [hloop1]
          simp only [hloop2]
          simp
        rw [hres]
        refine ⟨rfl, rfl, ?_, hk⟩
        rw [List.take_append_of_le_length (by rw [List.length_append]; omega),
          List.take_append_eq_append_take,
          List.take_of_length_le (by omega : (updDel init walk exts).length ≤ k)]
      · have hloop1 := fileLoop_no_stop env delStep k hpoll
          (updDel init walk exts) 0 init [] (by omega)
        have hloop2 := fileLoop_no_stop env (newStep env) k hpoll
          (updNew init walk exts) (0 + (updDel init walk exts).length)
          ((updDel init walk exts).foldl delStep init)
          ([] ++ updDel init walk exts) (by omega)
        have hloop3 := fileLoop_stops env (updStep env) k hpoll
          (updUpd env init walk exts)
          (0 + (updDel init walk exts).length + (updNew init walk exts).length)
          ((updNew init walk exts).foldl (newStep env)
            ((updDel init walk exts).foldl delStep init))
          ([] ++ updDel init walk exts ++ updNew init walk exts)
          (by omega) (by unfold updTotal at hk; omega)
        have hres : update_index_files env init idx0 walk exts false =
            ⟨((updUpd env init walk exts).take
                (k - ((updDel init walk exts).length + (updNew init walk exts).length))).foldl
                (updStep env) ((updNew init walk exts).foldl (newStep env)
                  ((updDel init walk exts).foldl delStep init)),
              ⟨("stopped"), updTotal env init walk exts, k⟩, ("stopped"), false,
              updDel init walk exts ++ updNew init walk exts ++
                (updUpd env init walk exts).take
                  (k - ((updDel init walk exts).length + (updNew init walk exts).length))⟩ := by
          unfold update_index_files
          simp only [Bool.false_eq_true, if_false, if_neg h0]
          simp only [hloop1]
          simp only [hloop2]
          simp only [hloop3]
          have hsub : k - (0 + (updDel init walk exts).length +
              (updNew init walk exts).length) =
              k - ((updDel init walk exts).length + (updNew init walk exts).length) := by
            omega
          simp [hsub]
        rw [hres]
        refine ⟨rfl, rfl, ?_, hk⟩
        have hlen : (updDel init walk exts ++ updNew init walk exts).length ≤ k := by
          rw [List.length_append]
          omega
        rw [List.take_append_eq_append_take, List.take_of_length_le hlen]
        simp [List.length_append]

/-- Witness for `c3_cancellation`: a stop first observed at poll 1 halts a
two-file full rebuild after one file, and a three-operation incremental run
after one operation. -/
theorem c3_cancellation_witness :
    (1 < (scanFiles [(("d"), ("a.txt")), (("d"), ("b.txt"))] [(".txt")]).length ∧
      (index_files ⟨fun _ => ("hello"), fun _ => some 5, fun _ => some 6,
          fun j => decide (1 ≤ j)⟩ emptyStore ⟨("not_started"), 0, 0⟩
          [(("d"), ("a.txt")), (("d"), ("b.txt"))] [(".txt")] false).idx =
        ⟨("stopped"), 2, 1⟩) ∧
    (1 < updTotal ⟨fun _ => ("hello"), fun _ => some 5, fun _ => some 6,
          fun j => decide (1 ≤ j)⟩
        ⟨[⟨("d/a.txt"), ("hi"), (".txt"), some 1, some 1⟩], [(("d/a.txt"), ("hi"))]⟩
        [(("d"), ("b.txt")), (("d"), ("c.txt"))] [(".txt")] ∧
      (update_index_files ⟨fun _ => ("hello"), fun _ => some 5, fun _ => some 6,
          fun j => decide (1 ≤ j)⟩
        ⟨[⟨("d/a.txt"), ("hi"), (".txt"), some 1, some 1⟩], [(("d/a.txt"), ("hi"))]⟩
        ⟨("completed"), 1, 1⟩
        [(("d"), ("b.txt")), (("d"), ("c.txt"))] [(".txt")] false).meta =
        ("stopped")) :=
  ⟨⟨by decide,
    (c3_cancellation.1 ⟨fun _ => ("hello"), fun _ => some 5, fun _ => some 6,
        fun j => decide (1 ≤ j)⟩ emptyStore ⟨("not_started"), 0, 0⟩
        [(("d"), ("a.txt")), (("d"), ("b.txt"))] [(".txt")] 1
        (fun _ => rfl) (by decide)).1⟩,
   ⟨by decide,
    (c3_cancellation.2 ⟨fun _ => ("hello"), fun _ => some 5, fun _ => some 6,
        fun j => decide (1 ≤ j)⟩
        ⟨[⟨("d/a.txt"), ("hi"), (".txt"), some 1, some 1⟩], [(("d/a.txt"), ("hi"))]⟩
        ⟨("completed"), 1, 1⟩
        [(("d"), ("b.txt")), (("d"), ("c.txt"))] [(".txt")] 1
        (fun _ => rfl) (by decide)).2.1⟩⟩

end FileSearch
